import Mathlib

/-!
Verification of the SMV fault-injection rewriting engine
(`script/faults_injector.py`, `script/smv_utils.py`).

Texts are modelled as `List Char` (Python `str`), and line lists as
`List (List Char)` (Python `str.splitlines(keepends=True)`).
-/

namespace SmvFault

/-- Python whitespace for `str.strip` / regex `\s` over ASCII text:
space, tab, newline, carriage return, vertical tab, form feed. -/
def isPySpace (c : Char) : Bool :=
  c = ' ' || c = '\t' || c = '\n' || c = '\r' || c = '\x0b' || c = '\x0c'

/-- Python `str.strip()`: drop leading and trailing whitespace. -/
def pyStrip (s : List Char) : List Char :=
  ((s.dropWhile isPySpace).reverse.dropWhile isPySpace).reverse

/-- Python `needle in hay` substring containment. -/
def containsSub (needle : List Char) : List Char → Bool
  | [] => needle.isEmpty
  | c :: rest => needle.isPrefixOf (c :: rest) || containsSub needle rest

/-- Index of the first occurrence of `needle` in `hay`, if any. -/
def findSubIdx (needle : List Char) : List Char → Option Nat
  | [] => if needle.isEmpty then some 0 else none
  | c :: rest =>
    if needle.isPrefixOf (c :: rest) then some 0
    else (findSubIdx needle rest).map (· + 1)

/-- Python `str.splitlines(keepends=True)` for the line boundaries that
occur in SMV text: `\r\n`, `\r`, `\n`.  The accumulator holds the current
line reversed. -/
def splitKeepEndsAux : List Char → List Char → List (List Char)
  | [], acc => if acc.isEmpty then [] else [acc.reverse]
  | '\r' :: '\n' :: rest, acc => (acc.reverse ++ ['\r', '\n']) :: splitKeepEndsAux rest []
  | '\r' :: rest, acc => (acc.reverse ++ ['\r']) :: splitKeepEndsAux rest []
  | '\n' :: rest, acc => (acc.reverse ++ ['\n']) :: splitKeepEndsAux rest []
  | c :: rest, acc => splitKeepEndsAux rest (c :: acc)

def splitKeepEnds (s : List Char) : List (List Char) :=
  splitKeepEndsAux s []

/-- Python `list.insert(i, x)` for the in-range indices used here
(insert before position `i`; append when `i` is the length). -/
def insertAt (i : Nat) (x : α) (l : List α) : List α :=
  l.take i ++ [x] ++ l.drop i

/-- Python `line.split(sep, 1)` specialised to the first colon:
returns the text before the first `:` and the text after it.
(The callers only use it on lines that do contain a colon.) -/
def splitFirstColon : List Char → (List Char × List Char)
  | [] => ([], [])
  | c :: rest =>
    if c = ':' then ([], rest)
    else
      let p := splitFirstColon rest
      (c :: p.1, p.2)

/-- One stuck-at fault record (`xml_parser.Fault`): kind, affected
variable name, forced value.  The Python attribute `variable` is a Lean
keyword, hence the field name `var`. -/
structure Fault where
  type : List Char
  var : List Char
  value : List Char
deriving DecidableEq, Repr

/-- The parsed fault-injection specification (`xml_parser.FaultModel`). -/
structure FaultModel where
  model_file : List Char
  target_module : List Char
  redundancy : Int
  faults : List Fault
deriving DecidableEq, Repr

/-- The `for i, line in enumerate(lines)` search pattern: index of the
first element satisfying `p`, counting from `i`. -/
def firstIdxFrom (p : List Char → Bool) : List (List Char) → Nat → Option Nat
  | [], _ => none
  | l :: rest, i => if p l then some i else firstIdxFrom p rest (i + 1)

/-- `line.strip().startswith(f"MODULE {module_name}")`. -/
def moduleHeaderPred (module_name : List Char) (l : List Char) : Bool :=
  ("MODULE ".data ++ module_name).isPrefixOf (pyStrip l)

/-- `line.strip().startswith("MODULE ")`. -/
def anyModuleHeaderPred (l : List Char) : Bool :=
  "MODULE ".data.isPrefixOf (pyStrip l)

/-- `smv_utils.find_module`: the half-open line range of `MODULE <name>`
in the full model text, or an error when no header line matches. -/
def find_module (content : List Char) (module_name : List Char) :
    Except (List Char) (Nat × Nat) :=
  match firstIdxFrom (moduleHeaderPred module_name) (splitKeepEnds content) 0 with
  | none => .error ("MODULE ".data ++ module_name ++ " not found".data)
  | some start =>
    match firstIdxFrom anyModuleHeaderPred ((splitKeepEnds content).drop (start + 1)) 0 with
    | some k => .ok (start, start + 1 + k)
    | none => .ok (start, (splitKeepEnds content).length)

/-- `StuckAtInjector._find_section_start`: index of the first line whose
stripped text starts with the keyword. -/
def find_section_start (lines : List (List Char)) (keyword : List Char) : Option Nat :=
  firstIdxFrom (fun l => keyword.isPrefixOf (pyStrip l)) lines 0

/-- `mode_name = f"stuck_{fault.value}"`. -/
def mode_name (f : Fault) : List Char :=
  "stuck_".data ++ f.value

/-- The loop of `StuckAtInjector.get_fault_mode_enum`: collect
`stuck_<value>` mode names, skipping names already collected. -/
def modesAux : List Fault → List (List Char) → List (List Char)
  | [], modes => modes
  | f :: rest, modes =>
    if modes.contains (mode_name f) then modesAux rest modes
    else modesAux rest (modes ++ [mode_name f])

/-- `StuckAtInjector.get_fault_mode_enum`: the comma-separated fault-mode
enumeration starting from `none`. -/
def get_fault_mode_enum (faults : List Fault) : List Char :=
  List.intercalate ", ".data (modesAux faults ["none".data])

/-- The fault-mode declaration line inserted after the VAR header
(`f"    fault_mode : {{{...}}};\n"`). -/
def fault_mode_decl (faults : List Fault) : List Char :=
  "    fault_mode : \x7b".data ++ get_fault_mode_enum faults ++ "\x7d;\n".data

/-- The initial-value assignment inserted after the ASSIGN header. -/
def init_fault_line : List Char :=
  "    init(fault_mode) := none;\n\n".data

/-- `StuckAtInjector._generate_next_fault_mode`: the two-branch
`next(fault_mode)` conditional. -/
def next_fault_mode (faults : List Fault) : List Char :=
  "    next(fault_mode) :=\n        case\n            fault_mode = none :\n                \x7b".data
    ++ get_fault_mode_enum faults
    ++ "\x7d;\n            TRUE :\n                fault_mode;\n        esac;\n".data

/-- The scan of `StuckAtInjector._find_insert_position_for_next_fault_mode`:
walk the lines after the ASSIGN header at running index `i`, remembering in
`lastInit` the index of the last line containing `init(`; stop at the first
line containing `next(`. -/
def fipGo : List (List Char) → Nat → Nat → Nat
  | [], _, lastInit => lastInit + 1
  | l :: rest, i, lastInit =>
    if containsSub "init(".data l then fipGo rest (i + 1) i
    else if containsSub "next(".data l then i
    else fipGo rest (i + 1) lastInit

/-- `StuckAtInjector._find_insert_position_for_next_fault_mode`. -/
def find_insert_position (lines : List (List Char)) (assign_idx : Nat) : Nat :=
  fipGo (lines.drop (assign_idx + 1)) (assign_idx + 1) assign_idx

/-- Match a literal at the head of a text, returning the rest on success. -/
def stripLit : List Char → List Char → Option (List Char)
  | [], s => some s
  | _ :: _, [] => none
  | c :: cs, d :: ds => if c = d then stripLit cs ds else none

/-- Attempt to match the regex prefix `next\(<v>\)\s*:=\s*case` at the head
of `cs`; on success returns the matched text (regex group 1) and the rest.
Whitespace runs are maximal, as with the greedy `\s*` (the characters that
follow, `:` and `c`, are not whitespace, so no backtracking arises). -/
def matchNextCaseHead (v : List Char) (cs : List Char) : Option (List Char × List Char) :=
  match stripLit ("next(".data ++ v ++ ")".data) cs with
  | none => none
  | some r1 =>
    match stripLit ":=".data (r1.dropWhile isPySpace) with
    | none => none
    | some r2 =>
      match stripLit "case".data (r2.dropWhile isPySpace) with
      | none => none
      | some r3 =>
        some ("next(".data ++ v ++ ")".data ++ r1.takeWhile isPySpace
          ++ ":=".data ++ r2.takeWhile isPySpace ++ "case".data, r3)

/-- `re.search` of the pattern
`(next\(<v>\)\s*:=\s*case)(.*?)(esac;)` with `re.DOTALL`: leftmost start
position wins, and the non-greedy group 2 ends at the first following
`esac;`.  Returns `(text before the match, group 1, group 2, text after
the match)`. -/
def searchNextCase (v : List Char) : List Char →
    Option (List Char × List Char × List Char × List Char)
  | [] => none
  | c :: rest =>
    match matchNextCaseHead v (c :: rest) with
    | some (g1, tail) =>
      match findSubIdx "esac;".data tail with
      | some k => some ([], g1, tail.take k, tail.drop (k + 5))
      | none => (searchNextCase v rest).map (fun r => (c :: r.1, r.2.1, r.2.2.1, r.2.2.2))
    | none => (searchNextCase v rest).map (fun r => (c :: r.1, r.2.1, r.2.2.1, r.2.2.2))

/-- One injected fault branch
`f"        fault_mode = {mode_name} : {fault.value};\n"`. -/
def fault_branch (f : Fault) : List Char :=
  "        fault_mode = stuck_".data ++ f.value ++ " : ".data ++ f.value ++ ";\n".data

/-- The loop of `_inject_into_next_assignment` building the fault-branch
text by successive concatenation. -/
def faultCasesAux : List Fault → List Char → List Char
  | [], acc => acc
  | f :: rest, acc => faultCasesAux rest (acc ++ fault_branch f)

/-- `fault_cases` of `_inject_into_next_assignment`: a newline followed by
one branch per fault. -/
def fault_cases (faults : List Fault) : List Char :=
  faultCasesAux faults "\n".data

/-- `StuckAtInjector._inject_into_next_assignment`: splice the fault
branches right after the `case` opener of `next(<v>)`, keeping the
original branches, and re-indenting `esac;`. -/
def inject_into_next_assignment (text : List Char) (v : List Char) (faults : List Fault) :
    Except (List Char) (List Char) :=
  match searchNextCase v text with
  | none => .error ("Could not find next(".data ++ v ++ ") assignment".data)
  | some (before, g1, g2, after) =>
    .ok (before ++ g1 ++ fault_cases faults ++ g2 ++ "    ".data ++ "esac;".data ++ after)

/-- The dict-building loop of `_inject_fault_conditions`: group faults by
affected variable, keys in first-occurrence order, each group in original
fault order. -/
def groupFaultsAux : List Fault → List (List Char × List Fault) → List (List Char × List Fault)
  | [], acc => acc
  | f :: rest, acc =>
    if (acc.map Prod.fst).contains f.var then
      groupFaultsAux rest (acc.map (fun p => if p.1 = f.var then (p.1, p.2 ++ [f]) else p))
    else
      groupFaultsAux rest (acc ++ [(f.var, [f])])

def group_faults (faults : List Fault) : List (List Char × List Fault) :=
  groupFaultsAux faults []

/-- The per-variable loop of `_inject_fault_conditions`, threading the
module text; the first failing variable aborts the run. -/
def injectFaultCondsGo : List (List Char × List Fault) → List Char →
    Except (List Char) (List Char)
  | [], t => .ok t
  | (v, vfs) :: rest, t =>
    match inject_into_next_assignment t v vfs with
    | .error e => .error e
    | .ok t2 => injectFaultCondsGo rest t2

/-- `StuckAtInjector._inject_fault_conditions`. -/
def inject_fault_conditions (faults : List Fault) (module_text : List Char) :
    Except (List Char) (List Char) :=
  injectFaultCondsGo (group_faults faults) module_text

/-- The declaration/assignment insertions of
`StuckAtInjector.inject_into_module` (its first half, before
`_inject_fault_conditions`): insert the fault-mode declaration after the
VAR header, the initial assignment after the ASSIGN header, and the
`next(fault_mode)` conditional at the computed position. -/
def declInject (faults : List Fault) (module_text : List Char) :
    Except (List Char) (List (List Char)) :=
  match find_section_start (splitKeepEnds module_text) "VAR".data with
  | none => .error "No VAR section found in module".data
  | some var_idx =>
    match find_section_start
        (insertAt (var_idx + 1) (fault_mode_decl faults) (splitKeepEnds module_text))
        "ASSIGN".data with
    | none => .error "No ASSIGN section found in module".data
    | some assign_idx =>
      .ok (insertAt
        (find_insert_position
          (insertAt (assign_idx + 1) init_fault_line
            (insertAt (var_idx + 1) (fault_mode_decl faults) (splitKeepEnds module_text)))
          assign_idx)
        (next_fault_mode faults)
        (insertAt (assign_idx + 1) init_fault_line
          (insertAt (var_idx + 1) (fault_mode_decl faults) (splitKeepEnds module_text))))

/-- `StuckAtInjector.inject_into_module`. -/
def inject_into_module (faults : List Fault) (module_text : List Char) :
    Except (List Char) (List Char) :=
  match declInject faults module_text with
  | .error e => .error e
  | .ok lines => inject_fault_conditions faults lines.flatten

/-- The per-line rewrite of `StuckAtInjector.protect_toggle_logic`: a line
containing `!request_toggle` and a colon is split at its first colon and
rebuilt with the `fault_mode = none` guard conjoined in front of the
stripped condition; any other line is kept with its newline restored. -/
def guardLine (l : List Char) : List Char :=
  if containsSub "!request_toggle".data l && containsSub ":".data l then
    let parts := splitFirstColon l
    "        fault_mode = none &\n        ".data ++ pyStrip parts.1
      ++ " : ".data ++ pyStrip parts.2 ++ "\n".data
  else l ++ "\n".data

/-- The accumulation loop over the split branch lines in
`protect_toggle_logic`. -/
def guardLines : List (List Char) → List (List Char)
  | [] => []
  | l :: rest => guardLine l :: guardLines rest

/-- `StuckAtInjector.protect_toggle_logic`. -/
def protect_toggle_logic (module_text : List Char) : List Char :=
  match searchNextCase "request_toggle".data module_text with
  | none => module_text
  | some (before, g1, g2, after) =>
    before ++ g1 ++ (guardLines (g2.splitOn '\n')).flatten ++ "    ".data ++ "esac;".data ++ after

/-- `FaultInjectionEngine._create_injector`: the Python test
`set(f.type for f in faults) == {'stuck-at'}` holds exactly when the list
is non-empty and every fault kind is `stuck-at`. -/
def create_injector (fm : FaultModel) : Except (List Char) (List Fault) :=
  let types := fm.faults.map (fun f => f.type)
  if !types.isEmpty && types.all (fun t => t == "stuck-at".data) then
    .ok fm.faults
  else
    .error "Unsupported fault type(s)".data

/-- Regex `\w` over ASCII text: letters, digits, underscore. -/
def isWordChar (c : Char) : Bool :=
  c.isAlphanum || c = '_'

/-- The non-greedy tail `(.*?)\);` of the instance-line regex: collect
characters (never a newline, since `.` does not match one) up to the first
`);`, returning the collected parameters and the remaining text. -/
def parseParams : List Char → Option (List Char × List Char)
  | [] => none
  | ')' :: ';' :: rest => some ([], rest)
  | '\n' :: _ => none
  | c :: rest => (parseParams rest).map (fun p => (c :: p.1, p.2))

/-- `re.match(r'(\s*)(\w+)\s*:\s*process\s+(\w+)\((.*?)\);', line)`: parse
an instance-declaration line into indentation, instance name, module name
and parameter list.  Each character class is disjoint from the literal
that follows it, so greedy runs need no backtracking. -/
def parseInstanceLine (line : List Char) :
    Option (List Char × List Char × List Char × List Char) :=
  let indent := line.takeWhile isPySpace
  let r1 := line.drop indent.length
  let name := r1.takeWhile isWordChar
  if name.isEmpty then none
  else
    let r2 := (r1.drop name.length).dropWhile isPySpace
    match r2 with
    | ':' :: r3 =>
      let r4 := r3.dropWhile isPySpace
      if "process".data.isPrefixOf r4 then
        let r5 := r4.drop 7
        let ws := r5.takeWhile isPySpace
        if ws.isEmpty then none
        else
          let r6 := r5.drop ws.length
          let mname := r6.takeWhile isWordChar
          if mname.isEmpty then none
          else
            match r6.drop mname.length with
            | '(' :: r7 =>
              match parseParams r7 with
              | some (params, _) => some (indent, name, mname, params)
              | none => none
            | _ => none
      else none
    | _ => none

/-- One replicated instance line
`f"{indent}{instance_name}_{i} : process {module_name}({params});\n"`. -/
def instance_line (indent name mname params : List Char) (i : Nat) : List Char :=
  indent ++ name ++ "_".data ++ (Nat.repr i).data ++ " : process ".data
    ++ mname ++ "(".data ++ params ++ ");\n".data

/-- The substring `f': process {target_module}'` tested against each
wrapper line. -/
def instanceNeedle (target : List Char) : List Char :=
  ": process ".data ++ target

/-- The body of the replication loop of
`FaultInjectionEngine.replicate_for_redundancy` for one wrapper line:
returns the lines it contributes to the new wrapper body and whether it
contained the target-instance substring. -/
def processNominalLine (target : List Char) (red : Nat) (line : List Char) :
    List (List Char) × Bool :=
  if containsSub (instanceNeedle target) line then
    match parseInstanceLine line with
    | some (indent, name, mname, params) =>
      ((List.range red).map (fun i => instance_line indent name mname params (i + 1)), true)
    | none => ([line], true)
  else ([line], false)

/-- The replication loop over the wrapper module's lines, accumulating the
new body and the `found_target` flag. -/
def processNominalGo (target : List Char) (red : Nat) : List (List Char) →
    List (List Char) × Bool
  | [] => ([], false)
  | l :: rest =>
    let p := processNominalLine target red l
    let q := processNominalGo target red rest
    (p.1 ++ q.1, p.2 || q.2)

/-- `FaultInjectionEngine.replicate_for_redundancy`.  The second component
collects the warning messages the Python code prints on its two
soft-failure paths (the function never raises). -/
def replicate_for_redundancy (fm : FaultModel) (smv_content : List Char) :
    List Char × List (List Char) :=
  if fm.redundancy ≤ 1 then (smv_content, [])
  else
    match find_module smv_content "NominalR".data with
    | .error _ =>
      (smv_content, ["Warning: NominalR module not found, skipping redundancy".data])
    | .ok (start, stop) =>
      match processNominalGo fm.target_module fm.redundancy.toNat
          (((splitKeepEnds smv_content).drop start).take (stop - start)) with
      | (new_nominal, true) =>
        (((splitKeepEnds smv_content).take start).flatten ++ new_nominal.flatten
          ++ ((splitKeepEnds smv_content).drop stop).flatten, [])
      | (_, false) =>
        (smv_content,
          ["Warning: Could not find instance of ".data ++ fm.target_module
            ++ " in NominalR".data])

/-- Specification-side helper: remove duplicates from a list of strings,
keeping the first occurrence of each.  Used to state the fault-mode
enumeration property of the spec (§4.3). -/
def dedupFirst : List (List Char) → List (List Char)
  | [] => []
  | x :: rest => x :: dedupFirst (rest.filter (fun y => !(y == x)))
termination_by l => l.length
decreasing_by
  simp only [List.length_cons]
  exact Nat.lt_succ_of_le (List.length_filter_le _ _)

/-! ## Generic helper lemmas -/

theorem eq_append_drop_of_prefix {α : Type} {p l : List α} (h : p <+: l) :
    l = p ++ l.drop p.length := by
  obtain ⟨t, rfl⟩ := h
  simp

theorem containsSub_of_isPrefixOf {n s : List Char} (h : n.isPrefixOf s = true) :
    containsSub n s = true := by
  cases s with
  | nil =>
    cases n with
    | nil => rfl
    | cons c cs => simp [List.isPrefixOf] at h
  | cons c rest => simp [containsSub, h]

theorem containsSub_append_right {n s : List Char} (pre : List Char)
    (h : containsSub n s = true) : containsSub n (pre ++ s) = true := by
  induction pre with
  | nil => simpa using h
  | cons c pre ih => simp [containsSub, ih]

/-! ## `firstIdxFrom` specification -/

theorem firstIdxFrom_some {p : List Char → Bool} :
    ∀ (ls : List (List Char)) (i k : Nat), firstIdxFrom p ls i = some k →
      i ≤ k ∧ k - i < ls.length
      ∧ (∃ x, ls[k - i]? = some x ∧ p x = true)
      ∧ (∀ j, j < k - i → ∀ y, ls[j]? = some y → p y = false) := by
  intro ls
  induction ls with
  | nil => intro i k h; simp [firstIdxFrom] at h
  | cons l rest ih =>
    intro i k h
    simp only [firstIdxFrom] at h
    by_cases hp : p l = true
    · rw [if_pos hp] at h
      injection h with h
      subst h
      refine ⟨Nat.le_refl _, by simp, ⟨l, by simp, hp⟩, ?_⟩
      intro j hj
      omega
    · rw [if_neg hp] at h
      obtain ⟨h1, h2, ⟨x, hx, hpx⟩, hmin⟩ := ih (i + 1) k h
      have hki : k - i = (k - (i + 1)) + 1 := by omega
      refine ⟨by omega, by simp; omega, ⟨x, ?_, hpx⟩, ?_⟩
      · rw [hki]; simpa using hx
      · intro j hj y hy
        cases j with
        | zero =>
          simp at hy
          subst hy
          simpa using hp
        | succ j' =>
          apply hmin j' (by omega)
          simpa using hy

theorem firstIdxFrom_none {p : List Char → Bool} :
    ∀ (ls : List (List Char)) (i : Nat),
      firstIdxFrom p ls i = none ↔ ∀ x ∈ ls, p x = false := by
  intro ls
  induction ls with
  | nil => intro i; simp [firstIdxFrom]
  | cons l rest ih =>
    intro i
    simp only [firstIdxFrom]
    by_cases hp : p l = true
    · simp [hp]
    · simp only [if_neg hp, ih (i + 1), List.mem_cons]
      constructor
      · intro h x hx
        rcases hx with rfl | hx
        · simpa using hp
        · exact h x hx
      · intro h x hx
        exact h x (Or.inr hx)

/-! ## `searchNextCase` decomposition -/

theorem stripLit_decomp : ∀ {lit s r : List Char}, stripLit lit s = some r → s = lit ++ r := by
  intro lit
  induction lit with
  | nil =>
    intro s r h
    cases h
    simp
  | cons c cs ih =>
    intro s r h
    cases s with
    | nil => exact Option.noConfusion h
    | cons d ds =>
      simp only [stripLit] at h
      split at h
      case isTrue hcd => simp [← hcd, ih h]
      case isFalse => exact Option.noConfusion h

theorem matchNextCaseHead_decomp {v cs g1 tail : List Char}
    (h : matchNextCaseHead v cs = some (g1, tail)) : cs = g1 ++ tail := by
  unfold matchNextCaseHead at h
  split at h
  case h_1 => exact Option.noConfusion h
  case h_2 r1 hs1 =>
    split at h
    case h_1 => exact Option.noConfusion h
    case h_2 r2 hs2 =>
      split at h
      case h_1 => exact Option.noConfusion h
      case h_2 r3 hs3 =>
        simp only [Option.some.injEq, Prod.mk.injEq] at h
        obtain ⟨hg, ht⟩ := h
        subst hg ht
        have e1 : cs = "next(".data ++ v ++ ")".data ++ r1 := by
          simpa [List.append_assoc] using stripLit_decomp hs1
        have e2 : r1 = r1.takeWhile isPySpace ++ (":=".data ++ r2) := by
          rw [← stripLit_decomp hs2, List.takeWhile_append_dropWhile]
        have e3 : r2 = r2.takeWhile isPySpace ++ ("case".data ++ r3) := by
          rw [← stripLit_decomp hs3, List.takeWhile_append_dropWhile]
        conv_lhs => rw [e1]
        conv_lhs => rw [e2]
        conv_lhs => rw [e3]
        simp [List.append_assoc]

theorem findSubIdx_decomp {n : List Char} :
    ∀ {h : List Char} {k : Nat}, findSubIdx n h = some k →
      h = h.take k ++ n ++ h.drop (k + n.length) := by
  intro h
  induction h with
  | nil =>
    intro k hk
    simp only [findSubIdx] at hk
    split at hk
    case isFalse => exact absurd hk (by simp)
    case isTrue hn =>
      injection hk with hk
      subst hk
      simp_all [List.isEmpty_iff]
  | cons c rest ih =>
    intro k hk
    simp only [findSubIdx] at hk
    split at hk
    case isTrue hpre =>
      injection hk with hk
      subst hk
      simpa using eq_append_drop_of_prefix (List.isPrefixOf_iff_prefix.mp hpre)
    case isFalse hpre =>
      rw [Option.map_eq_some'] at hk
      obtain ⟨k', hk', rfl⟩ := hk
      have := ih hk'
      calc c :: rest = c :: (rest.take k' ++ n ++ rest.drop (k' + n.length)) := by rw [← this]
        _ = (c :: rest).take (k' + 1) ++ n ++ (c :: rest).drop (k' + 1 + n.length) := by
            simp only [List.take_succ_cons, List.cons_append]
            have : k' + 1 + n.length = (k' + n.length) + 1 := by omega
            rw [this, List.drop_succ_cons]

theorem searchNextCase_decomp {v : List Char} :
    ∀ {t b g1 g2 a : List Char}, searchNextCase v t = some (b, g1, g2, a) →
      t = b ++ g1 ++ g2 ++ "esac;".data ++ a := by
  intro t
  induction t with
  | nil => intro b g1 g2 a h; simp [searchNextCase] at h
  | cons c rest ih =>
    intro b g1 g2 a h
    unfold searchNextCase at h
    split at h
    case h_1 g1' tail hm =>
      split at h
      case h_1 k hf =>
        simp only [Option.some.injEq, Prod.mk.injEq] at h
        obtain ⟨rfl, rfl, rfl, rfl⟩ := h
        have e1 := matchNextCaseHead_decomp hm
        have e2 := findSubIdx_decomp hf
        have e5 : ("esac;".data : List Char).length = 5 := rfl
        rw [e5] at e2
        rw [e1]
        conv_lhs => rw [e2]
        simp [List.append_assoc]
      case h_2 hf =>
        rw [Option.map_eq_some'] at h
        obtain ⟨⟨b', g1'', g2', a'⟩, hr, hf2⟩ := h
        simp only [Prod.mk.injEq] at hf2
        obtain ⟨rfl, rfl, rfl, rfl⟩ := hf2
        have := ih hr
        subst this
        simp [List.append_assoc]
    case h_2 hm =>
      rw [Option.map_eq_some'] at h
      obtain ⟨⟨b', g1'', g2', a'⟩, hr, hf2⟩ := h
      simp only [Prod.mk.injEq] at hf2
      obtain ⟨rfl, rfl, rfl, rfl⟩ := hf2
      have := ih hr
      subst this
      simp [List.append_assoc]

theorem faultCasesAux_eq : ∀ (fs : List Fault) (acc : List Char),
    faultCasesAux fs acc = acc ++ (fs.map fault_branch).flatten := by
  intro fs
  induction fs with
  | nil => intro acc; simp [faultCasesAux]
  | cons f rest ih =>
    intro acc
    simp [faultCasesAux, ih, List.append_assoc]

theorem fault_cases_eq (fs : List Fault) :
    fault_cases fs = "\n".data ++ (fs.map fault_branch).flatten :=
  faultCasesAux_eq fs _

/-- C1: when the variable has an existing `next(<v>) := case ... esac;`
block (the match hypothesis, with `g2` the original branches), the
Assignment Rewriter keeps the surrounding text and, inside the block,
emits one `fault_mode = stuck_<value> : <value>;` branch per fault, in the
original fault order, strictly before the original branches `g2`, which
follow unchanged. -/
theorem C1_fault_branches_first (text v : List Char) (fs : List Fault)
    (before g1 g2 after : List Char)
    (h : searchNextCase v text = some (before, g1, g2, after)) :
    text = before ++ g1 ++ g2 ++ "esac;".data ++ after
    ∧ inject_into_next_assignment text v fs =
        Except.ok (before ++ g1 ++ "\n".data ++ (fs.map fault_branch).flatten
          ++ g2 ++ "    ".data ++ "esac;".data ++ after) := by
  refine ⟨searchNextCase_decomp h, ?_⟩
  simp [inject_into_next_assignment, h, fault_cases_eq, List.append_assoc]

/-- Witness for C1 at a concrete one-branch block and one stuck-at-0 fault. -/
theorem C1_witness :
    "next(x) := case TRUE : y; esac;".data
      = ([] : List Char) ++ "next(x) := case".data ++ " TRUE : y; ".data
          ++ "esac;".data ++ ([] : List Char)
    ∧ inject_into_next_assignment "next(x) := case TRUE : y; esac;".data "x".data
        [⟨"stuck-at".data, "x".data, "0".data⟩] =
      Except.ok (([] : List Char) ++ "next(x) := case".data ++ "\n".data
        ++ ([⟨"stuck-at".data, "x".data, "0".data⟩].map fault_branch).flatten
        ++ " TRUE : y; ".data ++ "    ".data ++ "esac;".data ++ ([] : List Char)) :=
  C1_fault_branches_first "next(x) := case TRUE : y; esac;".data "x".data
    [⟨"stuck-at".data, "x".data, "0".data⟩]
    [] "next(x) := case".data " TRUE : y; ".data [] (by decide)

/-! ## C5: engine construction and fault kinds -/

/-- C5 counterexample: constructing the engine over an empty fault list
raises the unsupported-fault-kind error (`set() != {'stuck-at'}`), even
though no fault of a different kind appears, contradicting the claim that
the empty list is accepted. -/
theorem C5_counterexample :
    create_injector ⟨"m".data, "M".data, 1, []⟩ =
      Except.error "Unsupported fault type(s)".data := rfl

/-- C5 (amended): the unsupported-fault-kind error is raised exactly when
the set of fault kinds differs from the singleton stuck-at kind — that is,
when some fault has a different kind, or when the fault list is empty. -/
theorem C5_amended (fm : FaultModel) :
    (∃ e, create_injector fm = Except.error e) ↔
      (fm.faults = [] ∨ ∃ f ∈ fm.faults, f.type ≠ "stuck-at".data) := by
  simp only [create_injector]
  split
  case isTrue hc =>
    simp only [Bool.and_eq_true, List.all_eq_true, beq_iff_eq] at hc
    obtain ⟨hne, hall⟩ := hc
    constructor
    · rintro ⟨e, he⟩
      exact Except.noConfusion he
    · rintro (hnil | ⟨f, hf, hft⟩)
      · rw [hnil] at hne
        simp at hne
      · exact absurd (hall _ (List.mem_map_of_mem _ hf)) hft
  case isFalse hc =>
    refine ⟨fun _ => ?_, fun _ => ⟨_, rfl⟩⟩
    by_cases hnil : fm.faults = []
    · exact Or.inl hnil
    · refine Or.inr ?_
      by_contra hno
      push_neg at hno
      apply hc
      simp only [Bool.and_eq_true, List.all_eq_true, beq_iff_eq]
      refine ⟨by simp [hnil], ?_⟩
      intro t ht
      obtain ⟨f, hf, rfl⟩ := List.mem_map.mp ht
      exact hno f hf

/-! ## C4: the Guard Protector -/

theorem guardLines_eq_map (ls : List (List Char)) :
    guardLines ls = ls.map guardLine := by
  induction ls with
  | nil => rfl
  | cons l rest ih => simp [guardLines, ih]

/-- C4 counterexample: a branch whose condition mentions
`!request_toggle` but whose action term is `TRUE` (so the branch does not
flip the toggle) still gets the `fault_mode = none` guard: the per-branch
test is a plain substring check on the whole line, not on the action
term.  The claim says such a branch is left untouched. -/
theorem C4_counterexample :
    protect_toggle_logic
        "next(request_toggle) :=\ncase\n!request_toggle & go : TRUE;\nTRUE : request_toggle;\nesac;".data
      = "next(request_toggle) :=\ncase\n        fault_mode = none &\n        !request_toggle & go : TRUE;\nTRUE : request_toggle;\n\n    esac;".data
    ∧ containsSub "fault_mode = none &\n        !request_toggle & go : TRUE;".data
        (protect_toggle_logic
          "next(request_toggle) :=\ncase\n!request_toggle & go : TRUE;\nTRUE : request_toggle;\nesac;".data)
      = true := by
  constructor
  · rfl
  · decide

/-- C4 (amended): with no `next(request_toggle)` conditional block the
Guard Protector returns the text unchanged; when the block is present,
exactly the branch lines that contain the substring `!request_toggle`
together with a colon — whether the substring occurs in the action term or
in the condition — are rewritten with the `fault_mode = none` guard
conjoined in front of the stripped condition, and every other line is kept
as it was. -/
theorem C4_guard_protector (t : List Char) :
    (searchNextCase "request_toggle".data t = none → protect_toggle_logic t = t)
    ∧ (∀ b g1 g2 a, searchNextCase "request_toggle".data t = some (b, g1, g2, a) →
        protect_toggle_logic t =
          b ++ g1 ++ ((g2.splitOn '\n').map guardLine).flatten
            ++ "    ".data ++ "esac;".data ++ a
        ∧ ∀ l ∈ g2.splitOn '\n',
            (containsSub "!request_toggle".data l = false
              ∨ containsSub ":".data l = false) →
              guardLine l = l ++ "\n".data) := by
  constructor
  · intro h
    simp [protect_toggle_logic, h]
  · intro b g1 g2 a h
    constructor
    · simp [protect_toggle_logic, h, guardLines_eq_map]
    · intro l _ hl
      have hcond : (containsSub "!request_toggle".data l
          && containsSub ":".data l) = false := by
        rcases hl with hl | hl <;> simp [hl]
      simp [guardLine, hcond]

/-- Witness for C4 at a block-free text and at a concrete block. -/
theorem C4_witness :
    protect_toggle_logic "MODULE M\nVAR x;\n".data = "MODULE M\nVAR x;\n".data
    ∧ protect_toggle_logic "next(request_toggle) :=\ncase\nTRUE : !request_toggle;\nesac;".data
      = ([] : List Char) ++ "next(request_toggle) :=\ncase".data
          ++ (("\nTRUE : !request_toggle;\n".data.splitOn '\n').map guardLine).flatten
          ++ "    ".data ++ "esac;".data ++ ([] : List Char) :=
  ⟨(C4_guard_protector "MODULE M\nVAR x;\n".data).1 (by decide),
   ((C4_guard_protector _).2 [] "next(request_toggle) :=\ncase".data
      "\nTRUE : !request_toggle;\n".data [] (by decide)).1⟩

/-! ## C3: position of the `next(fault_mode)` insertion -/

theorem fipGo_first_next :
    ∀ (P : List (List Char)) (l2 : List Char) (Q : List (List Char)) (i li : Nat),
      (∀ l ∈ P, containsSub "next(".data l = false) →
      containsSub "next(".data l2 = true →
      containsSub "init(".data l2 = false →
      fipGo (P ++ l2 :: Q) i li = i + P.length := by
  intro P
  induction P with
  | nil =>
    intro l2 Q i li _ hn hi
    simp [fipGo, hi, hn]
  | cons p P ih =>
    intro l2 Q i li hP hn hi
    have hpn : containsSub "next(".data p = false := hP p (by simp)
    rw [List.cons_append]
    by_cases hpi : containsSub "init(".data p = true
    · have step : fipGo (p :: (P ++ l2 :: Q)) i li = fipGo (P ++ l2 :: Q) (i + 1) i := by
        simp [fipGo, hpi]
      rw [step, ih l2 Q (i + 1) i (fun l hl => hP l (by simp [hl])) hn hi]
      simp only [List.length_cons]
      omega
    · have hpi2 : containsSub "init(".data p = false := eq_false_of_ne_true hpi
      have step : fipGo (p :: (P ++ l2 :: Q)) i li = fipGo (P ++ l2 :: Q) (i + 1) li := by
        simp [fipGo, hpi2, hpn]
      rw [step, ih l2 Q (i + 1) li (fun l hl => hP l (by simp [hl])) hn hi]
      simp only [List.length_cons]
      omega

theorem fipGo_no_hits :
    ∀ (Q : List (List Char)) (i li : Nat),
      (∀ l ∈ Q, containsSub "next(".data l = false ∧ containsSub "init(".data l = false) →
      fipGo Q i li = li + 1 := by
  intro Q
  induction Q with
  | nil => intro i li _; rfl
  | cons q Q ih =>
    intro i li hQ
    obtain ⟨hn, hi⟩ := hQ q (by simp)
    have step : fipGo (q :: Q) i li = fipGo Q (i + 1) li := by
      simp [fipGo, hi, hn]
    rw [step]
    exact ih (i + 1) li (fun l hl => hQ l (by simp [hl]))

theorem fipGo_last_init :
    ∀ (P : List (List Char)) (l2 : List Char) (Q : List (List Char)) (i li : Nat),
      (∀ l ∈ P ++ l2 :: Q, containsSub "next(".data l = false) →
      containsSub "init(".data l2 = true →
      (∀ l ∈ Q, containsSub "init(".data l = false) →
      fipGo (P ++ l2 :: Q) i li = i + P.length + 1 := by
  intro P
  induction P with
  | nil =>
    intro l2 Q i li hno hi hQ
    rw [List.nil_append]
    have step : fipGo (l2 :: Q) i li = fipGo Q (i + 1) i := by
      simp [fipGo, hi]
    rw [step, fipGo_no_hits Q (i + 1) i
      (fun l hl => ⟨hno l (by simp [hl]), hQ l hl⟩)]
    simp
  | cons p P ih =>
    intro l2 Q i li hno hi hQ
    have hpn : containsSub "next(".data p = false := hno p (by simp)
    have ih2 := fun i li => ih l2 Q i li (fun l hl => hno l (by simp [hl])) hi hQ
    rw [List.cons_append]
    by_cases hpi : containsSub "init(".data p = true
    · have step : fipGo (p :: (P ++ l2 :: Q)) i li = fipGo (P ++ l2 :: Q) (i + 1) i := by
        simp [fipGo, hpi]
      rw [step, ih2 (i + 1) i]
      simp only [List.length_cons]
      omega
    · have hpi2 : containsSub "init(".data p = false := eq_false_of_ne_true hpi
      have step : fipGo (p :: (P ++ l2 :: Q)) i li = fipGo (P ++ l2 :: Q) (i + 1) li := by
        simp [fipGo, hpi2, hpn]
      rw [step, ih2 (i + 1) li]
      simp only [List.length_cons]
      omega

/-- C3: the `next(fault_mode)` insertion index (computed on the line list
that already holds the injected `init(fault_mode)` line) is: the index of
the first line after the ASSIGN header containing `next(` (so the new
assignment lands before the first existing next-state assignment and after
the initial-value assignments, which all precede it); if no such line
exists, one past the last line containing `init(`; and if there is no
`init(` line either, directly after the ASSIGN header. -/
theorem C3_insert_position (lines : List (List Char)) (ai : Nat) :
    (∀ P l2 Q, lines.drop (ai + 1) = P ++ l2 :: Q →
        (∀ l ∈ P, containsSub "next(".data l = false) →
        containsSub "next(".data l2 = true →
        containsSub "init(".data l2 = false →
        find_insert_position lines ai = ai + 1 + P.length)
    ∧ ((∀ l ∈ lines.drop (ai + 1), containsSub "next(".data l = false) →
        ∀ P l2 Q, lines.drop (ai + 1) = P ++ l2 :: Q →
          containsSub "init(".data l2 = true →
          (∀ l ∈ Q, containsSub "init(".data l = false) →
          find_insert_position lines ai = ai + 1 + P.length + 1)
    ∧ ((∀ l ∈ lines.drop (ai + 1),
          containsSub "next(".data l = false ∧ containsSub "init(".data l = false) →
        find_insert_position lines ai = ai + 1) := by
  refine ⟨?_, ?_, ?_⟩
  · intro P l2 Q hdec hP hn hi
    unfold find_insert_position
    rw [hdec, fipGo_first_next P l2 Q (ai + 1) ai hP hn hi]
  · intro hno P l2 Q hdec hi hQ
    unfold find_insert_position
    rw [hdec] at hno ⊢
    rw [fipGo_last_init P l2 Q (ai + 1) ai hno hi hQ]
  · intro hall
    unfold find_insert_position
    rw [fipGo_no_hits _ (ai + 1) ai hall]

/-- Witness for C3: all three placement cases at concrete line lists. -/
theorem C3_witness :
    find_insert_position
      ["ASSIGN\n".data, "    init(x) := 0;\n".data, "    next(x) := 0;\n".data] 0 = 2
    ∧ find_insert_position ["ASSIGN\n".data, "    init(x) := 0;\n".data] 0 = 2
    ∧ find_insert_position ["ASSIGN\n".data, "x\n".data] 0 = 1 :=
  ⟨(C3_insert_position
        ["ASSIGN\n".data, "    init(x) := 0;\n".data, "    next(x) := 0;\n".data] 0).1
      ["    init(x) := 0;\n".data] "    next(x) := 0;\n".data [] rfl
      (by decide) (by decide) (by decide),
   (C3_insert_position ["ASSIGN\n".data, "    init(x) := 0;\n".data] 0).2.1
      (by decide) [] "    init(x) := 0;\n".data [] rfl (by decide) (by decide),
   (C3_insert_position ["ASSIGN\n".data, "x\n".data] 0).2.2 (by decide)⟩

/-! ## C6: fatal structure errors -/

theorem injectFaultCondsGo_append (xs ys : List (List Char × List Fault)) :
    ∀ t, injectFaultCondsGo (xs ++ ys) t =
      match injectFaultCondsGo xs t with
      | .ok t2 => injectFaultCondsGo ys t2
      | .error e => .error e := by
  induction xs with
  | nil => intro t; rfl
  | cons g xs ih =>
    intro t
    obtain ⟨v, vfs⟩ := g
    simp only [List.cons_append, injectFaultCondsGo]
    cases h : inject_into_next_assignment t v vfs with
    | error e => rfl
    | ok t2 => exact ih t2

/-- C6: the module rewrite fails with an error — producing no rewritten
text — when the module text has no VAR section, when it has no ASSIGN
section, or when, the declaration insertions having succeeded, some
affected variable's turn comes and the current text holds no
`next(<variable>) := case ... esac;` block for it. -/
theorem C6_structure_errors (fs : List Fault) (m : List Char) :
    (find_section_start (splitKeepEnds m) "VAR".data = none →
        inject_into_module fs m = .error "No VAR section found in module".data)
    ∧ (∀ vi, find_section_start (splitKeepEnds m) "VAR".data = some vi →
        find_section_start (insertAt (vi + 1) (fault_mode_decl fs) (splitKeepEnds m))
            "ASSIGN".data = none →
        inject_into_module fs m = .error "No ASSIGN section found in module".data)
    ∧ (∀ L gs1 v vfs gs2 t, declInject fs m = .ok L →
        group_faults fs = gs1 ++ (v, vfs) :: gs2 →
        injectFaultCondsGo gs1 L.flatten = .ok t →
        searchNextCase v t = none →
        inject_into_module fs m =
          .error ("Could not find next(".data ++ v ++ ") assignment".data)) := by
  refine ⟨?_, ?_, ?_⟩
  · intro h
    simp [inject_into_module, declInject, h]
  · intro vi h1 h2
    simp [inject_into_module, declInject, h1, h2]
  · intro L gs1 v vfs gs2 t hL hg hgo hs
    simp only [inject_into_module, hL, inject_fault_conditions, hg,
      injectFaultCondsGo_append, hgo]
    simp [injectFaultCondsGo, inject_into_next_assignment, hs]

set_option maxRecDepth 10000 in
/-- Witness for C6: the three failure scenarios at concrete modules. -/
theorem C6_witness :
    inject_into_module [⟨"stuck-at".data, "x".data, "0".data⟩] "MODULE M\nASSIGN\n".data
      = .error "No VAR section found in module".data
    ∧ inject_into_module [⟨"stuck-at".data, "x".data, "0".data⟩]
        "MODULE M\nVAR\n    x : boolean;\n".data
      = .error "No ASSIGN section found in module".data
    ∧ inject_into_module [⟨"stuck-at".data, "x".data, "0".data⟩] "MODULE M\nVAR\nASSIGN\n".data
      = .error ("Could not find next(".data ++ "x".data ++ ") assignment".data) :=
  ⟨(C6_structure_errors _ _).1 rfl,
   (C6_structure_errors _ _).2.1 1 rfl rfl,
   (C6_structure_errors _ _).2.2 _ [] "x".data [⟨"stuck-at".data, "x".data, "0".data⟩] [] _
     rfl rfl rfl (by decide)⟩

/-! ## C7: the Module Locator -/

/-- C7: `find_module` fails exactly when no line's stripped text starts
with `MODULE <name>`; on success it returns the half-open line range
`[s, e)` where `s` is the first line whose stripped text starts with
`MODULE <name>` (a prefix test, so the first prefix match wins on name
collisions — witnessed concretely by `MODULE Sensor2` matching the search
for `Sensor`), and `e` is the next module-header line after `s`, or the
number of lines when the module is last. -/
theorem C7_module_locator (content name : List Char) :
    (find_module content name = Except.error ("MODULE ".data ++ name ++ " not found".data)
      ↔ ∀ l ∈ splitKeepEnds content,
          ("MODULE ".data ++ name).isPrefixOf (pyStrip l) = false)
    ∧ (∀ s e, find_module content name = .ok (s, e) →
        (∃ hl, (splitKeepEnds content)[s]? = some hl
            ∧ ("MODULE ".data ++ name).isPrefixOf (pyStrip hl) = true)
        ∧ (∀ j, j < s → ∀ l, (splitKeepEnds content)[j]? = some l →
            ("MODULE ".data ++ name).isPrefixOf (pyStrip l) = false)
        ∧ s < e
        ∧ (∀ j, s < j → j < e → ∀ l, (splitKeepEnds content)[j]? = some l →
            "MODULE ".data.isPrefixOf (pyStrip l) = false)
        ∧ ((∃ hl, (splitKeepEnds content)[e]? = some hl
              ∧ "MODULE ".data.isPrefixOf (pyStrip hl) = true)
            ∨ e = (splitKeepEnds content).length))
    ∧ find_module "MODULE Sensor2\nMODULE Sensor\n".data "Sensor".data = .ok (0, 1) := by
  refine ⟨?_, ?_, by rfl⟩
  · unfold find_module
    constructor
    · intro he
      split at he
      case h_1 hnone =>
        intro l hl
        exact (firstIdxFrom_none _ _).mp hnone l hl
      case h_2 start hsome =>
        split at he
        case h_1 k hin => exact Except.noConfusion he
        case h_2 hin => exact Except.noConfusion he
    · intro hall
      split
      case h_1 hnone => rfl
      case h_2 start hsome =>
        exfalso
        obtain ⟨_, _, ⟨x, hx, hpx⟩, _⟩ := firstIdxFrom_some _ 0 start hsome
        have hfalse : moduleHeaderPred name x = false := hall x (List.getElem?_mem hx)
        rw [hfalse] at hpx
        exact Bool.noConfusion hpx
  · intro s e hok
    unfold find_module at hok
    split at hok
    case h_1 hnone => exact Except.noConfusion hok
    case h_2 start hsome =>
      obtain ⟨-, hlen, ⟨x, hx, hpx⟩, hmin⟩ := firstIdxFrom_some _ 0 start hsome
      rw [Nat.sub_zero] at hlen hx
      split at hok
      case h_1 k hin =>
        injection hok with hok
        injection hok with hs he
        subst hs
        subst he
        obtain ⟨-, -, ⟨y, hy, hpy⟩, hmin2⟩ := firstIdxFrom_some _ 0 k hin
        rw [Nat.sub_zero] at hy
        rw [List.getElem?_drop] at hy
        refine ⟨⟨x, hx, hpx⟩, ?_, by omega, ?_, Or.inl ⟨y, hy, hpy⟩⟩
        · intro j hj l hl
          have hj0 : j - 0 < start := by omega
          have := hmin j (by omega) l (by rw [← hl])
          exact this
        · intro j hj1 hj2 l hl
          have hidx : (splitKeepEnds content)[(start + 1) + (j - start - 1)]? = some l := by
            rw [← hl]; congr 1; omega
          rw [← List.getElem?_drop] at hidx
          exact hmin2 (j - start - 1) (by omega) l hidx
      case h_2 hin =>
        injection hok with hok
        injection hok with hs he
        subst hs
        subst he
        have hnone := (firstIdxFrom_none _ _).mp hin
        refine ⟨⟨x, hx, hpx⟩, ?_, by omega, ?_, Or.inr rfl⟩
        · intro j hj l hl
          have := hmin j (by omega) l (by rw [← hl])
          exact this
        · intro j hj1 hj2 l hl
          have hidx : (splitKeepEnds content)[(start + 1) + (j - start - 1)]? = some l := by
            rw [← hl]; congr 1; omega
          rw [← List.getElem?_drop] at hidx
          exact hnone l (List.getElem?_mem hidx)

/-- Witness for C7 at a concrete two-module model. -/
theorem C7_witness :
    (∃ hl, (splitKeepEnds "MODULE A\nx\nMODULE B\ny\n".data)[2]? = some hl
        ∧ ("MODULE ".data ++ "B".data).isPrefixOf (pyStrip hl) = true)
    ∧ (∀ j, j < 2 → ∀ l, (splitKeepEnds "MODULE A\nx\nMODULE B\ny\n".data)[j]? = some l →
        ("MODULE ".data ++ "B".data).isPrefixOf (pyStrip l) = false)
    ∧ 2 < 4
    ∧ (∀ j, 2 < j → j < 4 → ∀ l, (splitKeepEnds "MODULE A\nx\nMODULE B\ny\n".data)[j]? = some l →
        "MODULE ".data.isPrefixOf (pyStrip l) = false)
    ∧ ((∃ hl, (splitKeepEnds "MODULE A\nx\nMODULE B\ny\n".data)[4]? = some hl
          ∧ "MODULE ".data.isPrefixOf (pyStrip hl) = true)
        ∨ 4 = (splitKeepEnds "MODULE A\nx\nMODULE B\ny\n".data).length) :=
  (C7_module_locator "MODULE A\nx\nMODULE B\ny\n".data "B".data).2.1 2 4 (by rfl)

/-! ## C8, C9, C10: the Redundancy Replicator -/

theorem processNominalGo_append (target : List Char) (red : Nat)
    (ls1 ls2 : List (List Char)) :
    processNominalGo target red (ls1 ++ ls2) =
      ((processNominalGo target red ls1).1 ++ (processNominalGo target red ls2).1,
        (processNominalGo target red ls1).2 || (processNominalGo target red ls2).2) := by
  induction ls1 with
  | nil => simp [processNominalGo]
  | cons l ls ih => simp [processNominalGo, ih, List.append_assoc, Bool.or_assoc]

theorem processNominalLine_no_match {target : List Char} {red : Nat} {l : List Char}
    (h : containsSub (instanceNeedle target) l = false) :
    processNominalLine target red l = ([l], false) := by
  simp [processNominalLine, h]

theorem processNominalLine_match {target : List Char} {red : Nat} {l : List Char}
    {indent nm mn ps : List Char}
    (h1 : containsSub (instanceNeedle target) l = true)
    (h2 : parseInstanceLine l = some (indent, nm, mn, ps)) :
    processNominalLine target red l =
      ((List.range red).map (fun i => instance_line indent nm mn ps (i + 1)), true) := by
  simp [processNominalLine, h1, h2]

theorem processNominalGo_no_match {target : List Char} {red : Nat} :
    ∀ {ls : List (List Char)},
      (∀ l ∈ ls, containsSub (instanceNeedle target) l = false) →
      processNominalGo target red ls = (ls, false) := by
  intro ls
  induction ls with
  | nil => intro _; rfl
  | cons l rest ih =>
    intro h
    have h1 := @processNominalLine_no_match _ red _ (h l (by simp))
    simp [processNominalGo, h1, ih (fun l2 hl => h l2 (by simp [hl]))]

/-- C8: with redundancy count at most 1 the Redundancy Replicator returns
the model text byte-for-byte unchanged; with count N at least 2 and a
`NominalR` wrapper whose body holds exactly one line containing the
target-instance substring, and that line parsing as
`<indent><name> : process <module>(<params>);`, the line is replaced by
exactly N instance lines, named `<name>_1` … `<name>_N`, of the same
module with identical parameters and identical indentation. -/
theorem C8_redundancy_replicator (fm : FaultModel) (content : List Char) :
    (fm.redundancy ≤ 1 → (replicate_for_redundancy fm content).1 = content)
    ∧ (2 ≤ fm.redundancy → ∀ s e pre line post indent nm mn ps,
        find_module content "NominalR".data = .ok (s, e) →
        ((splitKeepEnds content).drop s).take (e - s) = pre ++ line :: post →
        (∀ l ∈ pre, containsSub (instanceNeedle fm.target_module) l = false) →
        (∀ l ∈ post, containsSub (instanceNeedle fm.target_module) l = false) →
        containsSub (instanceNeedle fm.target_module) line = true →
        parseInstanceLine line = some (indent, nm, mn, ps) →
        (replicate_for_redundancy fm content).1 =
          ((splitKeepEnds content).take s).flatten
            ++ (pre ++ ((List.range fm.redundancy.toNat).map
                  (fun i => instance_line indent nm mn ps (i + 1)) ++ post)).flatten
            ++ ((splitKeepEnds content).drop e).flatten
        ∧ ((List.range fm.redundancy.toNat).map
              (fun i => instance_line indent nm mn ps (i + 1))).length = fm.redundancy.toNat
        ∧ ∀ i, i < fm.redundancy.toNat →
            ((List.range fm.redundancy.toNat).map
                (fun i => instance_line indent nm mn ps (i + 1)))[i]? =
              some (indent ++ nm ++ "_".data ++ (Nat.repr (i + 1)).data
                ++ " : process ".data ++ mn ++ "(".data ++ ps ++ ");\n".data)) := by
  constructor
  · intro h
    simp [replicate_for_redundancy, h]
  · intro hred s e pre line post indent nm mn ps hfm hdec hpre hpost hline hparse
    have hnot : ¬ fm.redundancy ≤ 1 := by omega
    have hres : processNominalGo fm.target_module fm.redundancy.toNat (pre ++ line :: post)
        = (pre ++ ((List.range fm.redundancy.toNat).map
            (fun i => instance_line indent nm mn ps (i + 1)) ++ post), true) := by
      rw [processNominalGo_append]
      rw [processNominalGo_no_match hpre]
      have hcons : processNominalGo fm.target_module fm.redundancy.toNat (line :: post)
          = ((List.range fm.redundancy.toNat).map
              (fun i => instance_line indent nm mn ps (i + 1)) ++ post, true) := by
        simp [processNominalGo, processNominalLine_match hline hparse,
          processNominalGo_no_match hpost]
      rw [hcons]
      rfl
    refine ⟨?_, by simp, ?_⟩
    · simp only [replicate_for_redundancy, if_neg hnot, hfm, hdec, hres]
    · intro i hi
      simp [List.getElem?_map, List.getElem?_range, hi, instance_line]

/-- Witness for C8 at a concrete wrapper with one Sensor instance and
redundancy 2 (and the no-op case at redundancy 1). -/
theorem C8_witness :
    (replicate_for_redundancy
        ⟨"m".data, "Sensor".data, 1, []⟩ "MODULE NominalR\nx\n".data).1
      = "MODULE NominalR\nx\n".data
    ∧ ((replicate_for_redundancy ⟨"m".data, "Sensor".data, 2, []⟩
          "MODULE NominalR\n    s : process Sensor(a, b);\nMODULE Sensor\n".data).1 =
        ((splitKeepEnds "MODULE NominalR\n    s : process Sensor(a, b);\nMODULE Sensor\n".data).take 0).flatten
          ++ (["MODULE NominalR\n".data]
              ++ (((List.range (2 : Int).toNat).map
                    (fun i => instance_line "    ".data "s".data "Sensor".data "a, b".data (i + 1))) ++ [])).flatten
          ++ ((splitKeepEnds "MODULE NominalR\n    s : process Sensor(a, b);\nMODULE Sensor\n".data).drop 2).flatten
        ∧ (((List.range (2 : Int).toNat).map
            (fun i => instance_line "    ".data "s".data "Sensor".data "a, b".data (i + 1))).length = (2 : Int).toNat)
        ∧ ∀ i, i < (2 : Int).toNat →
            (((List.range (2 : Int).toNat).map
                (fun i => instance_line "    ".data "s".data "Sensor".data "a, b".data (i + 1))))[i]? =
              some ("    ".data ++ "s".data ++ "_".data ++ (Nat.repr (i + 1)).data
                ++ " : process ".data ++ "Sensor".data ++ "(".data ++ "a, b".data ++ ");\n".data)) :=
  ⟨(C8_redundancy_replicator ⟨"m".data, "Sensor".data, 1, []⟩ "MODULE NominalR\nx\n".data).1
      (by decide),
   (C8_redundancy_replicator ⟨"m".data, "Sensor".data, 2, []⟩
        "MODULE NominalR\n    s : process Sensor(a, b);\nMODULE Sensor\n".data).2
      (by decide) 0 2 ["MODULE NominalR\n".data] "    s : process Sensor(a, b);\n".data []
      "    ".data "s".data "Sensor".data "a, b".data
      (by rfl) (by rfl) (by decide) (by decide) (by decide) (by rfl)⟩

/-- C9: with redundancy count N ≥ 2, a missing `NominalR` wrapper module,
or a wrapper whose body has no line containing the target-instance
substring, makes the Redundancy Replicator return the input text unchanged
together with a diagnostic message — no exception is raised. -/
theorem C9_soft_failures (fm : FaultModel) (content : List Char) :
    (2 ≤ fm.redundancy → ∀ msg, find_module content "NominalR".data = .error msg →
        replicate_for_redundancy fm content =
          (content, ["Warning: NominalR module not found, skipping redundancy".data]))
    ∧ (2 ≤ fm.redundancy → ∀ s e, find_module content "NominalR".data = .ok (s, e) →
        (∀ l ∈ ((splitKeepEnds content).drop s).take (e - s),
            containsSub (instanceNeedle fm.target_module) l = false) →
        replicate_for_redundancy fm content =
          (content, ["Warning: Could not find instance of ".data ++ fm.target_module
            ++ " in NominalR".data])) := by
  constructor
  · intro hred msg hfm
    have hnot : ¬ fm.redundancy ≤ 1 := by omega
    simp only [replicate_for_redundancy, if_neg hnot, hfm]
  · intro hred s e hfm hno
    have hnot : ¬ fm.redundancy ≤ 1 := by omega
    simp only [replicate_for_redundancy, if_neg hnot, hfm, processNominalGo_no_match hno]

/-- Witness for C9: both soft-failure paths at concrete models. -/
theorem C9_witness :
    replicate_for_redundancy ⟨"m".data, "Sensor".data, 2, []⟩ "MODULE Main\nx\n".data
      = ("MODULE Main\nx\n".data,
          ["Warning: NominalR module not found, skipping redundancy".data])
    ∧ replicate_for_redundancy ⟨"m".data, "Sensor".data, 2, []⟩ "MODULE NominalR\nx\n".data
      = ("MODULE NominalR\nx\n".data,
          ["Warning: Could not find instance of ".data ++ "Sensor".data
            ++ " in NominalR".data]) :=
  ⟨(C9_soft_failures ⟨"m".data, "Sensor".data, 2, []⟩ "MODULE Main\nx\n".data).1
      (by decide) ("MODULE ".data ++ "NominalR".data ++ " not found".data) (by rfl),
   (C9_soft_failures ⟨"m".data, "Sensor".data, 2, []⟩ "MODULE NominalR\nx\n".data).2
      (by decide) 0 2 (by rfl) (by decide)⟩

/-- C10: every wrapper line containing the substring
`: process <TargetModule>` is treated as a target-instance line — the
wrapper's lines are processed independently and concatenated, a matching
line that fits the structural pattern is expanded into the N suffixed
instances, and because the test is a plain substring check, a line
instantiating `Sensor2` is matched and replicated when the target is
`Sensor` (concretely: a wrapper holding a `Sensor` line and a `Sensor2`
line has both expanded). -/
theorem C10_substring_matching :
    (∀ (target : List Char) (red : Nat) (ls1 ls2 : List (List Char)),
        processNominalGo target red (ls1 ++ ls2) =
          ((processNominalGo target red ls1).1 ++ (processNominalGo target red ls2).1,
            (processNominalGo target red ls1).2 || (processNominalGo target red ls2).2))
    ∧ (∀ (target : List Char) (red : Nat) (l indent nm mn ps : List Char),
        containsSub (instanceNeedle target) l = true →
        parseInstanceLine l = some (indent, nm, mn, ps) →
        processNominalLine target red l =
          ((List.range red).map (fun i => instance_line indent nm mn ps (i + 1)), true))
    ∧ processNominalLine "Sensor".data 2 "    s2 : process Sensor2(a, b);\n".data =
        (["    s2_1 : process Sensor2(a, b);\n".data,
          "    s2_2 : process Sensor2(a, b);\n".data], true)
    ∧ (replicate_for_redundancy ⟨"m".data, "Sensor".data, 2, []⟩
        "MODULE NominalR\n    s : process Sensor(a, b);\n    t : process Sensor2(c);\nMODULE Sensor\n".data).1
      = "MODULE NominalR\n    s_1 : process Sensor(a, b);\n    s_2 : process Sensor(a, b);\n    t_1 : process Sensor2(c);\n    t_2 : process Sensor2(c);\nMODULE Sensor\n".data :=
  ⟨processNominalGo_append,
   fun _ _ _ _ _ _ _ h1 h2 => processNominalLine_match h1 h2,
   by rfl, by rfl⟩

/-- Witness for C10's per-line expansion at a concrete instance line. -/
theorem C10_witness :
    processNominalLine "M".data 1 "a : process M(x);\n".data =
      ((List.range 1).map
        (fun i => instance_line "".data "a".data "M".data "x".data (i + 1)), true) :=
  C10_substring_matching.2.1 "M".data 1 "a : process M(x);\n".data
    "".data "a".data "M".data "x".data (by decide) (by rfl)

/-! ## C2: the Declaration Injector -/

theorem containsSub_nil_left : ∀ (s : List Char), containsSub [] s = true
  | [] => rfl
  | _ :: _ => by simp [containsSub, List.isPrefixOf]

theorem containsSub_append_left {n a : List Char} (b : List Char)
    (h : containsSub n a = true) : containsSub n (a ++ b) = true := by
  induction a with
  | nil =>
    simp only [containsSub] at h
    rw [List.isEmpty_iff] at h
    subst h
    exact containsSub_nil_left b
  | cons c rest ih =>
    simp only [containsSub, Bool.or_eq_true] at h
    rcases h with h | h
    · have hpre : n <+: (c :: rest) ++ b :=
        (List.isPrefixOf_iff_prefix.mp h).trans (List.prefix_append _ _)
      rw [List.cons_append]
      simp only [containsSub, Bool.or_eq_true, List.isPrefixOf_iff_prefix]
      exact Or.inl (by simpa using hpre)
    · rw [List.cons_append]
      simp [containsSub, ih h]

theorem modesAux_eq : ∀ (fs : List Fault) (acc : List (List Char)),
    modesAux fs acc =
      acc ++ dedupFirst ((fs.map mode_name).filter (fun m => !(acc.contains m))) := by
  intro fs
  induction fs with
  | nil => intro acc; simp [modesAux, dedupFirst]
  | cons f fs ih =>
    intro acc
    simp only [modesAux, List.map_cons, List.filter_cons]
    by_cases hc : acc.contains (mode_name f) = true
    · rw [if_pos hc]
      have hb : (!acc.contains (mode_name f)) = false := by simpa using hc
      rw [hb]
      simp only [Bool.false_eq_true, if_false]
      exact ih acc
    · have hc2 : acc.contains (mode_name f) = false := eq_false_of_ne_true hc
      rw [if_neg hc]
      have hb : (!acc.contains (mode_name f)) = true := by simpa using hc2
      rw [hb]
      simp only [if_true]
      rw [ih (acc ++ [mode_name f])]
      rw [dedupFirst]
      have hfeq : (fs.map mode_name).filter (fun m => !((acc ++ [mode_name f]).contains m))
          = ((fs.map mode_name).filter (fun m => !acc.contains m)).filter
              (fun y => !(y == mode_name f)) := by
        rw [List.filter_filter]
        apply List.filter_congr
        intro x _
        simp only [List.contains, List.elem_eq_mem, List.mem_append, List.mem_singleton]
        simp [Bool.not_or, Bool.and_comm, Bool.beq_eq_decide_eq]
      rw [hfeq]
      simp [List.append_assoc]

/-- The mode name of a fault is never the symbol `none`. -/
theorem mode_name_ne_none (f : Fault) : (mode_name f == "none".data) = false := by
  simp only [beq_eq_false_iff_ne, ne_eq]
  intro h
  have := congrArg (fun l => l[0]?) h
  simp [mode_name] at this

theorem get_fault_mode_enum_eq (fs : List Fault) :
    get_fault_mode_enum fs =
      List.intercalate ", ".data ("none".data :: dedupFirst (fs.map mode_name)) := by
  unfold get_fault_mode_enum
  rw [modesAux_eq]
  have hfilter : (fs.map mode_name).filter (fun m => !(["none".data].contains m))
      = fs.map mode_name := by
    rw [List.filter_eq_self]
    intro a ha
    obtain ⟨f, _, rfl⟩ := List.mem_map.mp ha
    simp [List.contains, List.elem_eq_mem]
    intro h
    have := mode_name_ne_none f
    rw [beq_eq_false_iff_ne] at this
    exact this h
  rw [hfilter]
  rfl

theorem insertAt_length {α : Type} {i : Nat} {l : List α} (x : α) (h : i ≤ l.length) :
    (insertAt i x l).length = l.length + 1 := by
  simp only [insertAt, List.length_append, List.length_take, List.length_drop,
    List.length_singleton]
  omega

theorem getElem?_insertAt_lt {α : Type} {i k : Nat} {l : List α} (x : α)
    (hk : k < i) (hkl : k < l.length) : (insertAt i x l)[k]? = l[k]? := by
  unfold insertAt
  rw [List.getElem?_append_left
    (by simp only [List.length_append, List.length_take, List.length_singleton]; omega)]
  rw [List.getElem?_append_left
    (by simp only [List.length_take]; omega)]
  exact List.getElem?_take_of_lt hk

theorem getElem?_insertAt_self {α : Type} {i : Nat} {l : List α} (x : α)
    (h : i ≤ l.length) : (insertAt i x l)[i]? = some x := by
  unfold insertAt
  rw [List.getElem?_append_left
    (by simp only [List.length_append, List.length_take, List.length_singleton]; omega)]
  rw [List.getElem?_append_right (by simp only [List.length_take]; omega)]
  simp [Nat.min_eq_left h]

theorem count_insertAt (i : Nat) (x y : List Char) (l : List (List Char)) :
    (insertAt i x l).count y = l.count y + if y == x then 1 else 0 := by
  unfold insertAt
  rw [List.count_append, List.count_append]
  have h1 : List.count y [x] = if y == x then 1 else 0 := by
    rw [List.count_cons, List.count_nil]
    simp [BEq.comm]
  rw [h1]
  have h2 : l.count y = (l.take i).count y + (l.drop i).count y := by
    conv_lhs => rw [← List.take_append_drop i l]
    rw [List.count_append]
  rw [h2]
  generalize (if (y == x) = true then 1 else 0) = t
  omega

theorem fipGo_ge : ∀ (ls : List (List Char)) (i li : Nat),
    min i (li + 1) ≤ fipGo ls i li := by
  intro ls
  induction ls with
  | nil => intro i li; simp [fipGo]
  | cons l rest ih =>
    intro i li
    by_cases h1 : containsSub "init(".data l = true
    · have step : fipGo (l :: rest) i li = fipGo rest (i + 1) i := by simp [fipGo, h1]
      rw [step]
      have := ih (i + 1) li
      have := ih (i + 1) i
      omega
    · have h1b : containsSub "init(".data l = false := eq_false_of_ne_true h1
      by_cases h2 : containsSub "next(".data l = true
      · have step : fipGo (l :: rest) i li = i := by simp [fipGo, h1b, h2]
        rw [step]
        omega
      · have h2b : containsSub "next(".data l = false := eq_false_of_ne_true h2
        have step : fipGo (l :: rest) i li = fipGo rest (i + 1) li := by
          simp [fipGo, h1b, h2b]
        rw [step]
        have := ih (i + 1) li
        omega

theorem containsSub_fault_mode_decl (fs : List Fault) :
    containsSub "fault_mode".data (fault_mode_decl fs) = true := by
  unfold fault_mode_decl
  apply containsSub_append_left
  apply containsSub_append_left
  decide

theorem containsSub_init_fault_line :
    containsSub "fault_mode".data init_fault_line = true := by decide

theorem containsSub_next_fault_mode (fs : List Fault) :
    containsSub "fault_mode".data (next_fault_mode fs) = true := by
  unfold next_fault_mode
  apply containsSub_append_left
  apply containsSub_append_left
  decide

theorem take9_fault_mode_decl (fs : List Fault) :
    (fault_mode_decl fs).take 9 = "    fault".data := by
  unfold fault_mode_decl
  rw [List.take_append_of_le_length
    (by rw [List.length_append]
        have h : ("    fault_mode : \x7b".data : List Char).length = 18 := by decide
        omega)]
  rw [List.take_append_of_le_length (by decide)]
  decide

theorem take9_next_fault_mode (fs : List Fault) :
    (next_fault_mode fs).take 9 = "    next(".data := by
  unfold next_fault_mode
  rw [List.take_append_of_le_length
    (by rw [List.length_append]
        have h : (("    next(fault_mode) :=\n        case\n            fault_mode = none :\n                \x7b".data : List Char)).length = 86 := by decide
        omega)]
  rw [List.take_append_of_le_length (by decide)]
  decide

theorem fault_mode_decl_ne_init (fs : List Fault) :
    fault_mode_decl fs ≠ init_fault_line := by
  intro h
  have h9 := congrArg (List.take 9) h
  rw [take9_fault_mode_decl] at h9
  revert h9
  decide

theorem fault_mode_decl_ne_next (fs fs2 : List Fault) :
    fault_mode_decl fs ≠ next_fault_mode fs2 := by
  intro h
  have h9 := congrArg (List.take 9) h
  rw [take9_fault_mode_decl, take9_next_fault_mode] at h9
  revert h9
  decide

theorem init_ne_next_fault_mode (fs : List Fault) :
    init_fault_line ≠ next_fault_mode fs := by
  intro h
  have h9 := congrArg (List.take 9) h
  rw [take9_next_fault_mode] at h9
  revert h9
  decide

theorem count_zero_of_clean {lines : List (List Char)} {y : List Char}
    (hclean : ∀ l ∈ lines, containsSub "fault_mode".data l = false)
    (hy : containsSub "fault_mode".data y = true) : lines.count y = 0 := by
  rw [List.count_eq_zero]
  intro hmem
  rw [hclean y hmem] at hy
  exact Bool.noConfusion hy

theorem drop_insertAt_self {α : Type} {i : Nat} {l : List α} (x : α)
    (h : i ≤ l.length) : (insertAt i x l).drop i = x :: l.drop i := by
  unfold insertAt
  rw [List.drop_append_of_le_length
    (by rw [List.length_append, List.length_singleton, List.length_take]; omega)]
  rw [List.drop_append_of_le_length (by rw [List.length_take]; omega)]
  rw [List.drop_eq_nil_of_le (by rw [List.length_take]; omega)]
  rfl

/-- C2: for a module with VAR and ASSIGN sections (and no pre-existing
mention of `fault_mode`), the Declaration Injector succeeds and its line
list holds exactly one fault-mode declaration — whose domain is the
brace-delimited enumeration `none, stuck_<v1>, ...` with duplicates
removed by value-string equality keeping the first occurrence — placed
immediately after the VAR header; exactly one `init(fault_mode) := none;`
line immediately after the ASSIGN header; and exactly one
`next(fault_mode)` assignment, the two-branch conditional choosing any
value of the full enumeration while no fault is latched and keeping the
value unchanged otherwise. -/
theorem C2_declaration_injector (fs : List Fault) (m : List Char) (vi ai : Nat)
    (hfs : fs ≠ [])
    (hv : find_section_start (splitKeepEnds m) "VAR".data = some vi)
    (ha : find_section_start
        (insertAt (vi + 1) (fault_mode_decl fs) (splitKeepEnds m)) "ASSIGN".data = some ai)
    (hvia : vi < ai)
    (hclean : ∀ l ∈ splitKeepEnds m, containsSub "fault_mode".data l = false) :
    ∃ L, declInject fs m = Except.ok L
      ∧ fault_mode_decl fs = "    fault_mode : \x7b".data
          ++ List.intercalate ", ".data ("none".data :: dedupFirst (fs.map mode_name))
          ++ "\x7d;\n".data
      ∧ next_fault_mode fs =
          "    next(fault_mode) :=\n        case\n            fault_mode = none :\n                \x7b".data
          ++ List.intercalate ", ".data ("none".data :: dedupFirst (fs.map mode_name))
          ++ "\x7d;\n            TRUE :\n                fault_mode;\n        esac;\n".data
      ∧ L.count (fault_mode_decl fs) = 1
      ∧ L.count init_fault_line = 1
      ∧ L.count (next_fault_mode fs) = 1
      ∧ (∃ hdr, L[vi]? = some hdr ∧ "VAR".data.isPrefixOf (pyStrip hdr) = true)
      ∧ L[vi + 1]? = some (fault_mode_decl fs)
      ∧ (∃ hdr, L[ai]? = some hdr ∧ "ASSIGN".data.isPrefixOf (pyStrip hdr) = true)
      ∧ L[ai + 1]? = some init_fault_line := by
  unfold find_section_start at hv ha
  obtain ⟨-, hviLen, ⟨hdrV, hgetV, hpV⟩, -⟩ := firstIdxFrom_some _ 0 vi hv
  rw [Nat.sub_zero] at hviLen hgetV
  obtain ⟨-, haiLen, ⟨hdrA, hgetA, hpA⟩, -⟩ := firstIdxFrom_some _ 0 ai ha
  rw [Nat.sub_zero] at haiLen hgetA
  have hlen2 : (insertAt (vi + 1) (fault_mode_decl fs) (splitKeepEnds m)).length
      = (splitKeepEnds m).length + 1 := insertAt_length _ (by omega)
  have haiLen2 : ai < (splitKeepEnds m).length + 1 := by rw [← hlen2]; exact haiLen
  have hlen3 : (insertAt (ai + 1) init_fault_line
      (insertAt (vi + 1) (fault_mode_decl fs) (splitKeepEnds m))).length
      = (splitKeepEnds m).length + 2 := by
    rw [insertAt_length _ (by omega), hlen2]
  have hposge : ai + 2 ≤ find_insert_position
      (insertAt (ai + 1) init_fault_line
        (insertAt (vi + 1) (fault_mode_decl fs) (splitKeepEnds m))) ai := by
    unfold find_insert_position
    rw [drop_insertAt_self _ (by omega)]
    have hini : containsSub "init(".data init_fault_line = true := by decide
    have hstep : fipGo (init_fault_line ::
        (insertAt (vi + 1) (fault_mode_decl fs) (splitKeepEnds m)).drop (ai + 1))
          (ai + 1) ai
        = fipGo ((insertAt (vi + 1) (fault_mode_decl fs) (splitKeepEnds m)).drop (ai + 1))
            (ai + 2) (ai + 1) := by
      simp [fipGo, hini]
    rw [hstep]
    have := fipGo_ge
      ((insertAt (vi + 1) (fault_mode_decl fs) (splitKeepEnds m)).drop (ai + 1))
      (ai + 2) (ai + 1)
    omega
  have e1 : (fault_mode_decl fs == next_fault_mode fs) = false :=
    beq_eq_false_iff_ne.mpr (fault_mode_decl_ne_next fs fs)
  have e2 : (fault_mode_decl fs == init_fault_line) = false :=
    beq_eq_false_iff_ne.mpr (fault_mode_decl_ne_init fs)
  have e3 : (init_fault_line == next_fault_mode fs) = false :=
    beq_eq_false_iff_ne.mpr (init_ne_next_fault_mode fs)
  have e4 : (init_fault_line == fault_mode_decl fs) = false :=
    beq_eq_false_iff_ne.mpr (Ne.symm (fault_mode_decl_ne_init fs))
  have e5 : (next_fault_mode fs == init_fault_line) = false :=
    beq_eq_false_iff_ne.mpr (Ne.symm (init_ne_next_fault_mode fs))
  have e6 : (next_fault_mode fs == fault_mode_decl fs) = false :=
    beq_eq_false_iff_ne.mpr (Ne.symm (fault_mode_decl_ne_next fs fs))
  refine ⟨insertAt (find_insert_position (insertAt (ai + 1) init_fault_line
      (insertAt (vi + 1) (fault_mode_decl fs) (splitKeepEnds m))) ai)
      (next_fault_mode fs)
      (insertAt (ai + 1) init_fault_line
        (insertAt (vi + 1) (fault_mode_decl fs) (splitKeepEnds m))),
    ?_, ?_, ?_, ?_, ?_, ?_, ?_, ?_, ?_, ?_⟩
  · simp only [declInject, find_section_start, hv, ha]
  · unfold fault_mode_decl
    rw [get_fault_mode_enum_eq]
  · unfold next_fault_mode
    rw [get_fault_mode_enum_eq]
  · rw [count_insertAt, count_insertAt, count_insertAt,
      count_zero_of_clean hclean (containsSub_fault_mode_decl fs)]
    simp [e1, e2]
  · rw [count_insertAt, count_insertAt, count_insertAt,
      count_zero_of_clean hclean containsSub_init_fault_line]
    simp [e3, e4]
  · rw [count_insertAt, count_insertAt, count_insertAt,
      count_zero_of_clean hclean (containsSub_next_fault_mode fs)]
    simp [e5, e6]
  · refine ⟨hdrV, ?_, hpV⟩
    rw [getElem?_insertAt_lt _ (by omega) (by rw [hlen3]; omega)]
    rw [getElem?_insertAt_lt _ (by omega) (by rw [hlen2]; omega)]
    rw [getElem?_insertAt_lt _ (by omega) (by omega)]
    exact hgetV
  · rw [getElem?_insertAt_lt _ (by omega) (by rw [hlen3]; omega)]
    rw [getElem?_insertAt_lt _ (by omega) (by rw [hlen2]; omega)]
    exact getElem?_insertAt_self _ (by omega)
  · refine ⟨hdrA, ?_, hpA⟩
    rw [getElem?_insertAt_lt _ (by omega) (by rw [hlen3]; omega)]
    rw [getElem?_insertAt_lt _ (by omega) (by omega)]
    exact hgetA
  · rw [getElem?_insertAt_lt _ (by omega) (by rw [hlen3]; omega)]
    exact getElem?_insertAt_self _ (by omega)

/-- Witness for C2 at a concrete Sensor module with one stuck-at-0 fault. -/
theorem C2_witness :
    ∃ L, declInject [⟨"stuck-at".data, "reading".data, "0".data⟩]
        "MODULE Sensor\nVAR\n    reading : 0..7;\nASSIGN\n    init(reading) := 0;\n    next(reading) :=\n        case\n            TRUE : reading + 1;\n        esac;\n".data
        = Except.ok L
      ∧ fault_mode_decl [⟨"stuck-at".data, "reading".data, "0".data⟩]
          = "    fault_mode : \x7b".data
            ++ List.intercalate ", ".data ("none".data
                :: dedupFirst ([⟨"stuck-at".data, "reading".data, "0".data⟩].map mode_name))
            ++ "\x7d;\n".data
      ∧ next_fault_mode [⟨"stuck-at".data, "reading".data, "0".data⟩]
          = "    next(fault_mode) :=\n        case\n            fault_mode = none :\n                \x7b".data
            ++ List.intercalate ", ".data ("none".data
                :: dedupFirst ([⟨"stuck-at".data, "reading".data, "0".data⟩].map mode_name))
            ++ "\x7d;\n            TRUE :\n                fault_mode;\n        esac;\n".data
      ∧ L.count (fault_mode_decl [⟨"stuck-at".data, "reading".data, "0".data⟩]) = 1
      ∧ L.count init_fault_line = 1
      ∧ L.count (next_fault_mode [⟨"stuck-at".data, "reading".data, "0".data⟩]) = 1
      ∧ (∃ hdr, L[1]? = some hdr ∧ "VAR".data.isPrefixOf (pyStrip hdr) = true)
      ∧ L[2]? = some (fault_mode_decl [⟨"stuck-at".data, "reading".data, "0".data⟩])
      ∧ (∃ hdr, L[4]? = some hdr ∧ "ASSIGN".data.isPrefixOf (pyStrip hdr) = true)
      ∧ L[5]? = some init_fault_line :=
  C2_declaration_injector [⟨"stuck-at".data, "reading".data, "0".data⟩]
    "MODULE Sensor\nVAR\n    reading : 0..7;\nASSIGN\n    init(reading) := 0;\n    next(reading) :=\n        case\n            TRUE : reading + 1;\n        esac;\n".data
    1 4 (by decide) (by rfl) (by rfl) (by omega) (by decide)

end SmvFault
